import Mathlib

/-!
# Verification of the `zones` business-lookup system

A shallow embedding, in Lean 4, of the core of the `zones` repository:

* `src/business_lookup.py` — the name normalizer (`normalize_company_name`),
  the variation generator (`get_name_variations`), the match decision engine
  (`is_company_match`) and the markup field extractor (`extract_company_info`);
* `src/playwright_version/web_scraper_playwright.py` — the concurrent batch
  orchestrator (`ConcurrentBusinessProcessor.process_businesses` /
  `_process_single_business`) and its semaphore admission gate.

Python strings are modelled as Lean `String` / `List Char`; Python `dict`s as
ordered association lists with first-key lookup and in-place update; Python
`set`s of strings as duplicate-free `List String` built by an
insert-if-absent operation (only membership is ever observed); Python floats
(the discrete confidence tiers 0.95 / 0.85 / 0.80 / 0.70 / 0.0) as `ℚ`.
The specific regular expressions used by the source are compiled by hand into
character-list scanners that implement exactly the matching semantics of
those patterns (leftmost match, the source's alternation order, greedy /
lazy quantifiers, `\b` word boundaries); scanners that consume a variable
number of characters per step recurse structurally on a fuel argument that
is initialised to the length of the input, which every step strictly
decreases while consuming at least one character, so the fuel never runs
out on the wrapper's calls and the definitions stay kernel-computable.

Case mapping (`str.lower` / `str.upper`) is modelled on ASCII, which covers
every character the matching pipeline can observe after normalization.
-/

namespace Zones

/-! ## Character classes (Python `\s`, `\w`, regex character sets) -/

/-- Python `\s` (ASCII range): space, tab, newline, carriage return,
vertical tab, form feed. -/
def isWsChar (c : Char) : Bool :=
  c = ' ' || c = '\t' || c = '\n' || c = '\r' || c = Char.ofNat 11 || c = Char.ofNat 12

/-- Python `\w` word character, as used by the `\b` boundaries of the
suffix / co-op patterns: alphanumeric or underscore (plus the accented
letter appearing in the source's suffix dictionary). -/
def isWordCh (c : Char) : Bool :=
  c.isAlphanum || c = '_' || c = 'é'

/-- The character class `[a-z0-9\s-]` kept by
`re.sub(r'[^a-z0-9\s-]', ' ', name)`. -/
def isKeepChar (c : Char) : Bool :=
  ('a' ≤ c && c ≤ 'z') || ('0' ≤ c && c ≤ '9') || isWsChar c || c = '-'

def aposChar : Char := Char.ofNat 39

def quoteChar : Char := Char.ofNat 34

/-! ## Basic string helpers -/

/-- `o = some r` iff `pat` is a prefix of `s`, with `r` the remaining suffix. -/
def stripPre : List Char → List Char → Option (List Char)
  | [], s => some s
  | _ :: _, [] => none
  | p :: pr, c :: cr => if p = c then stripPre pr cr else none

/-- Python `str.strip` family: drop characters satisfying `p` from both ends. -/
def stripEnds (p : Char → Bool) (l : List Char) : List Char :=
  ((l.dropWhile p).reverse.dropWhile p).reverse

def toLowerStr (s : String) : String := String.mk (s.toList.map Char.toLower)

def toUpperStr (s : String) : String := String.mk (s.toList.map Char.toUpper)

/-- Python `str.strip()` (whitespace, both ends). -/
def pyStripStr (s : String) : String := String.mk (stripEnds isWsChar s.toList)

/-- Python substring test `pat in s` on character lists. -/
def occursInL (pat : List Char) : List Char → Bool
  | [] => pat.isEmpty
  | c :: rest => (stripPre pat (c :: rest)).isSome || occursInL pat rest

/-- Python substring test `pat in s`. -/
def occursIn (pat s : String) : Bool := occursInL pat.toList s.toList

/-- Python `str.isalpha()`: non-empty and every character alphabetic. -/
def pyIsAlpha (s : String) : Bool := !s.toList.isEmpty && s.toList.all Char.isAlpha

/-- Python `str.split()` with no separator: split on whitespace runs,
discarding empty fields.  Fuel-driven scanner (fuel ≥ length suffices). -/
def splitWsGo : ℕ → List Char → List (List Char)
  | 0, _ => []
  | _ + 1, [] => []
  | fuel + 1, c :: rest =>
    if isWsChar c then splitWsGo fuel rest
    else ((c :: rest).takeWhile (fun x => !isWsChar x)) ::
      splitWsGo fuel (rest.dropWhile (fun x => !isWsChar x))

def splitWs (s : String) : List String :=
  (splitWsGo s.toList.length s.toList).map String.mk

/-- Python `str.replace(old, new)`: replace all non-overlapping occurrences,
scanning left to right.  Fuel-driven (fuel ≥ length suffices; `pat ≠ []`
for every table entry used by the source). -/
def strReplaceGo (pat rep : List Char) : ℕ → List Char → List Char
  | 0, s => s
  | _ + 1, [] => []
  | fuel + 1, c :: rest =>
    match stripPre pat (c :: rest) with
    | some _ => rep ++ strReplaceGo pat rep fuel (rest.drop (pat.length - 1))
    | none => c :: strReplaceGo pat rep fuel rest

def strReplace (pat rep s : List Char) : List Char := strReplaceGo pat rep s.length s

/-! ## `normalize_company_name` (src/business_lookup.py lines 432–496)

Each regex substitution of the source is rendered as a dedicated scanner. -/

/-- Scanner for `re.sub(r'\s*[\(\[].*?[\]\)]', ' ', name)`: from a position
just after an opening bracket, the lazy `.*?` stops at the first closing
`]`/`)`; `.` does not cross a newline.  Returns the number of characters
consumed including the closing bracket. -/
def findCloseN : List Char → Option ℕ
  | [] => none
  | c :: rest =>
    if c = ')' || c = ']' then some 1
    else if c = '\n' then none
    else (findCloseN rest).map (· + 1)

/-- A match of `\s*[\(\[].*?[\]\)]` starting at the head of `l`: either an
opening bracket directly, or a whitespace run whose end is an opening
bracket (the greedy `\s*` must reach the bracket).  Returns the count of
characters consumed. -/
def bracketTry (l : List Char) : Option ℕ :=
  match l with
  | [] => none
  | c :: rest =>
    if c = '(' || c = '[' then (findCloseN rest).map (· + 1)
    else if isWsChar c then
      let run := (c :: rest).takeWhile isWsChar
      match (c :: rest).dropWhile isWsChar with
      | a :: arest =>
        if a = '(' || a = '[' then (findCloseN arest).map (fun m => run.length + 1 + m)
        else none
      | [] => none
    else none

def bracketGo : ℕ → List Char → List Char
  | 0, s => s
  | _ + 1, [] => []
  | fuel + 1, c :: rest =>
    match bracketTry (c :: rest) with
    | some n => ' ' :: bracketGo fuel (rest.drop (n - 1))
    | none => c :: bracketGo fuel rest

def bracketScan (s : List Char) : List Char := bracketGo s.length s

/-- The business-entity suffix dictionary, in the source's order (the
alternation order of the compiled pattern `\b(...)\b`). -/
def entitySuffixes : List String :=
  ["inc", "llc", "ltd", "llp", "corp", "corporation", "limited", "incorporated",
   "llc.", "ltd.", "inc.", "corp.", "limited.", "incorporated.",
   "gmbh", "ag", "sarl", "srl", "pte", "ltee", "bv", "nv", "oyj", "ab", "as",
   "company", "co", "lp", "plc", "llp", "lllp", "lc", "p c", "pc", "pa",
   "professional corporation", "professional association",
   "societe", "société", "societe en nom collectif", "société en nom collectif",
   "societe en commandite", "société en commandite", "societe anonyme", "société anonyme"]

def suffixAlts : List (List Char) := entitySuffixes.map String.toList

/-- `\b` before a potential match: boundary between the previous character
(`none` at the start of the string) and the current one. -/
def boundaryBefore (prev : Option Char) (c : Char) : Bool :=
  match prev with
  | none => isWordCh c
  | some p => isWordCh p != isWordCh c

/-- `\b` after a match ending in `lc`, with `rest` the remaining input. -/
def boundaryAfter (lc : Char) (rest : List Char) : Bool :=
  match rest with
  | [] => isWordCh lc
  | d :: _ => isWordCh lc != isWordCh d

/-- Try the alternatives in order at the current position; an alternative
succeeds when it is a literal prefix and the trailing `\b` holds.  Returns
the last matched character and the match length. -/
def tryAlts : List (List Char) → List Char → Option (Char × ℕ)
  | [], _ => none
  | alt :: more, s =>
    match stripPre alt s, alt.getLast? with
    | some r, some lc =>
      if boundaryAfter lc r then some (lc, alt.length) else tryAlts more s
    | _, _ => tryAlts more s

/-- Scanner for `re.sub(suffix_pattern, '', name)` where `suffix_pattern`
is `\b(suffix1|suffix2|...)\b`: matches are removed (replaced by the empty
string) and scanning resumes after the match, the previous character for
boundary purposes being the last character of the matched original text. -/
def suffixGo : ℕ → Option Char → List Char → List Char
  | 0, _, s => s
  | _ + 1, _, [] => []
  | fuel + 1, prev, c :: rest =>
    if boundaryBefore prev c then
      match tryAlts suffixAlts (c :: rest) with
      | some (lc, n) => suffixGo fuel (some lc) (rest.drop (n - 1))
      | none => c :: suffixGo fuel (some c) rest
    else c :: suffixGo fuel (some c) rest

def suffixScan (s : List Char) : List Char := suffixGo s.length none s

/-- `re.sub(r'\b(co[\s-]?op(?:erative)?|coop(?:erative)?)\b', 'co-op', name)`.
After `co`, the engine's backtracking order tries: separator + `operative`,
separator + `op`, `operative`, `op` (the second alternative of the source
pattern repeats the last two).  Returns the number of characters consumed. -/
def coopTry : List Char → Option ℕ
  | 'c' :: 'o' :: rest =>
    let opEr : List Char := ['o', 'p', 'e', 'r', 'a', 't', 'i', 'v', 'e']
    let opOnly : List Char := ['o', 'p']
    let noSep : Option ℕ :=
      match stripPre opEr rest with
      | some r =>
        if boundaryAfter 'e' r then some 11
        else
          match stripPre opOnly rest with
          | some r2 => if boundaryAfter 'p' r2 then some 4 else none
          | none => none
      | none =>
        match stripPre opOnly rest with
        | some r2 => if boundaryAfter 'p' r2 then some 4 else none
        | none => none
    match rest with
    | d :: rest2 =>
      if isWsChar d || d = '-' then
        match stripPre opEr rest2 with
        | some r =>
          if boundaryAfter 'e' r then some 12
          else
            match stripPre opOnly rest2 with
            | some r2 => if boundaryAfter 'p' r2 then some 5 else noSep
            | none => noSep
        | none =>
          match stripPre opOnly rest2 with
          | some r2 => if boundaryAfter 'p' r2 then some 5 else noSep
          | none => noSep
      else noSep
    | [] => noSep
  | _ => none

/-- Every co-op match ends in a word character (`e` or `p`), so passing `p`
as the previous character preserves the `\b` computation at the resume
position. -/
def coopGo : ℕ → Option Char → List Char → List Char
  | 0, _, s => s
  | _ + 1, _, [] => []
  | fuel + 1, prev, c :: rest =>
    if boundaryBefore prev c then
      match coopTry (c :: rest) with
      | some n => 'c' :: 'o' :: '-' :: 'o' :: 'p' :: coopGo fuel (some 'p') (rest.drop (n - 1))
      | none => c :: coopGo fuel (some c) rest
    else c :: coopGo fuel (some c) rest

def coopScan (s : List Char) : List Char := coopGo s.length none s

/-- The source's ordered replacement table (Python `dict` insertion order),
applied sequentially by `str.replace`. -/
def replacementPairs : List (List Char × List Char) :=
  [(['&'], ['a', 'n', 'd']),
   (['+'], ['a', 'n', 'd']),
   (['@'], ['a', 't']),
   (['w', '/'], ['w', 'i', 't', 'h']),
   (['w', ' ', '/'], ['w', 'i', 't', 'h']),
   (['w', '.', 'o', '.'], ['w', 'i', 't', 'h', 'o', 'u', 't']),
   (['v', 's', '.'], ['v', 'e', 'r', 's', 'u', 's']),
   ([aposChar, 's'], []),
   ([aposChar], []),
   ([quoteChar], []),
   ([','], [' ']),
   (['.'], [' ']),
   ([';'], [' ']),
   ([':'], [' ']),
   ([' ', ' '], [' '])]

def applyReplacements (s : List Char) : List Char :=
  replacementPairs.foldl (fun acc pr => strReplace pr.1 pr.2 acc) s

/-- A match of `\s+-\s+` starting at the head of `l` (which must be
whitespace): maximal whitespace run, a single `-`, then at least one
whitespace character (maximal run).  Returns the count consumed. -/
def hyphenSpaceTry (l : List Char) : Option ℕ :=
  let run1 := l.takeWhile isWsChar
  match l.dropWhile isWsChar with
  | '-' :: a2 =>
    let run2 := a2.takeWhile isWsChar
    if run2.isEmpty then none else some (run1.length + 1 + run2.length)
  | _ => none

def hyphenSpaceGo : ℕ → List Char → List Char
  | 0, s => s
  | _ + 1, [] => []
  | fuel + 1, c :: rest =>
    if isWsChar c then
      match hyphenSpaceTry (c :: rest) with
      | some n => '-' :: hyphenSpaceGo fuel (rest.drop (n - 1))
      | none => c :: hyphenSpaceGo fuel rest
    else c :: hyphenSpaceGo fuel rest

def hyphenSpaceScan (s : List Char) : List Char := hyphenSpaceGo s.length s

/-- `re.sub(r'X+', 'X', ...)` for a character class `p`: collapse each
maximal run of `p`-characters to the single character `rep`. -/
def collapseGo (p : Char → Bool) (rep : Char) : ℕ → List Char → List Char
  | 0, s => s
  | _ + 1, [] => []
  | fuel + 1, c :: rest =>
    if p c then rep :: collapseGo p rep fuel (rest.dropWhile p)
    else c :: collapseGo p rep fuel rest

def collapseRuns (p : Char → Bool) (rep : Char) (s : List Char) : List Char :=
  collapseGo p rep s.length s

/-- `normalize_company_name` (src/business_lookup.py lines 432–496). -/
def normalize_company_name (name : String) : String :=
  if name = "" then ""
  else
    let s0 := stripEnds isWsChar (name.toList.map Char.toLower)
    let s1 := bracketScan s0
    let s2 := suffixScan s1
    let s3 := coopScan s2
    let s4 := applyReplacements s3
    let s5 := s4.map (fun c => if isKeepChar c then c else ' ')
    let s6 := hyphenSpaceScan s5
    let s7 := collapseRuns (fun c => c = '-') '-' s6
    let s8 := collapseRuns isWsChar ' ' s7
    String.mk (stripEnds (fun c => c = ' ' || c = '-') s8)

/-! ## `get_name_variations` (src/business_lookup.py lines 498–548)

A Python `set` of strings is modelled as a duplicate-free list built by
`pyAdd`; only membership is ever observed downstream. -/

def pyAdd (l : List String) (x : String) : List String :=
  if l.contains x then l else l ++ [x]

def pySetOfList (l : List String) : List String := l.foldl pyAdd []

def pyInter (a b : List String) : List String := a.filter (fun x => b.contains x)

def pyUnion (a b : List String) : List String := b.foldl pyAdd a

def joinSpace (ws : List String) : String := String.intercalate " " ws

/-- `name.replace('-', ' ')`. -/
def replHyphen (s : String) : String :=
  String.mk (s.toList.map (fun c => if c = '-' then ' ' else c))

/-- The fixed closed set of function words removed for the
stop-word-filtered variation. -/
def commonWords : List String :=
  ["the", "and", "of", "for", "in", "at", "on", "by", "to", "with", "a", "an"]

/-- `(words[0][0] + words[1][0]).lower()`. -/
def twoLetterOf (ws : List String) : String :=
  toLowerStr (String.mk [((ws.headD "").toList.headD ' '), ((ws.getD 1 "").toList.headD ' ')])

/-- `get_name_variations` (src/business_lookup.py lines 498–548). -/
def get_name_variations (name : String) : List String :=
  if name = "" then []
  else
    let n := normalize_company_name name
    if n = "" then []
    else
      let ws := (splitWs n).filter (fun w => 1 < w.length)
      let acronym := toLowerStr (String.mk (ws.map (fun w => w.toList.headD ' ')))
      let block1 : List String :=
        if ws.isEmpty then []
        else
          (if 1 < acronym.length then [acronym] else [])
            ++ (if 1 < ws.length then [twoLetterOf ws] else [])
      let firstWord := if ws.isEmpty then "" else ws.headD ""
      let block2 := if firstWord ≠ "" ∧ 1 < firstWord.length then [firstWord] else []
      let block3 := if 1 < ws.length then [joinSpace (ws.take 2)] else []
      let filtered := ws.filter (fun w => !commonWords.contains (toLowerStr w))
      let block4 :=
        if ¬filtered.isEmpty ∧ filtered.length < ws.length then [joinSpace filtered] else []
      let block5 := if ws.length = 2 then [joinSpace ws.reverse] else []
      pySetOfList ([n, replHyphen n, replHyphen n] ++ block1 ++ block2 ++ block3
        ++ block4 ++ block5)

/-! ## `is_company_match` (src/business_lookup.py lines 421–633) -/

/-- The value a Python function returns: the source's `is_company_match`
returns a 2-tuple on the missing-name early exit and a 3-tuple everywhere
else, so the embedding distinguishes the two shapes. -/
inductive MatchRet where
  | pair (is_match : Bool) (matched : String)
  | triple (is_match : Bool) (matched : String) (confidence : ℚ)
  deriving DecidableEq

/-- The token pool of one side: every word of every variation, as a set,
then filtered to tokens of length > 2 (lines 570–580). -/
def termSet (name : String) : List String :=
  (pySetOfList (((get_name_variations name).map splitWs).flatten)).filter
    (fun t => 2 < t.length)

/-- The substring-containment check of lines 594–601. -/
def substrSignal (sTerms cTerms : List String) : Bool :=
  sTerms.any (fun st => cTerms.any (fun ct => occursIn st ct || occursIn ct st))

/-- The co-op special case of lines 603–606, evaluated on the union of the
two token pools. -/
def coopSignal (u : List String) : Bool :=
  (u.any (fun t => occursIn "coop" t || occursIn "co-op" t))
    && (u.any (fun t => t = "coop" || t = "co-op"))

/-- The acronym pools of lines 610–611: variations of length ≤ 4 made of
letters only. -/
def acronymsOf (name : String) : List String :=
  (get_name_variations name).filter (fun v => v.length ≤ 4 && pyIsAlpha v)

/-- `is_company_match` (src/business_lookup.py lines 421–633). -/
def is_company_match (search_name : String) (company_info : List (String × String)) :
    MatchRet :=
  if company_info.isEmpty || (List.lookup "COMPANY NAME" company_info).isNone then
    MatchRet.pair false ""
  else
    let company_name := (List.lookup "COMPANY NAME" company_info).getD ""
    let sv := get_name_variations search_name
    let cv := get_name_variations company_name
    if pyInter sv cv ≠ [] then MatchRet.triple true company_name (95 / 100)
    else
      let sTerms := termSet search_name
      let cTerms := termSet company_name
      let common := pyInter sTerms cTerms
      let sig1 := if common ≠ [] then true else substrSignal sTerms cTerms
      let sig2 := sig1 || coopSignal (pyUnion sTerms cTerms)
      let acrInter := pyInter (acronymsOf search_name) (acronymsOf company_name)
      let sig3 := sig2 || !acrInter.isEmpty
      let conf : ℚ :=
        if sig3 then
          if common ≠ [] then 85 / 100
          else if acrInter ≠ [] then 80 / 100
          else 70 / 100
        else 0
      MatchRet.triple sig3 company_name conf

/-! ## Markup field extractor: `extract_company_info`
(src/business_lookup.py lines 265–419)

A rendered document / DOM element is modelled abstractly: an element carries
its stripped text (`get_text(strip=True)`), its raw markup (`str(el)`), a
CSS-selection function answering `soup.select` / `el.select` queries, and
the texts of its anchors having both an `href` and a string (the
`find_all('a', href=True, string=True)` query).  A `FieldMap` (Python
`dict`) is an association list with first-key lookup and in-place update.

The debug-file section of the source (lines 268–290) only performs file
I/O: the assignment `info['_detailed_info'] = detailed_info` at line 286
references `info` before any binding exists, raising a `NameError` that the
inner `except` absorbs, and `info` is then rebound to `{}` at line 293, so
the section never contributes to the returned map and is not modelled.
The outer `except` of the source is unreachable in the model (the pipeline
is total). -/

inductive Elem where
  | mk (textStrip : String) (rawHtml : String) (selAll : String → List Elem)
      (anchorTexts : List String)

def Elem.textStrip : Elem → String
  | .mk t _ _ _ => t

def Elem.rawHtml : Elem → String
  | .mk _ h _ _ => h

def Elem.selAll : Elem → String → List Elem
  | .mk _ _ f _ => f

def Elem.anchorTexts : Elem → List String
  | .mk _ _ _ a => a

/-- Python `dict` assignment `d[k] = v`: update in place when the key
exists (keeping its position), else append. -/
def dictSet (d : List (String × String)) (k v : String) : List (String × String) :=
  if (List.lookup k d).isSome then d.map (fun p => if p.1 = k then (k, v) else p)
  else d ++ [(k, v)]

/-- The ordered block-selector cascade (lines 297–303). -/
def result_selectors : List String :=
  ["div.registerItemSearch-results-page-line", "div.search-result", "div.result-item",
   "div[class*=\"result\"]", "div[class*=\"item\"]"]

def corpTypeSelector : String := ".registerItemSearch-results-page-line-item1.registryInfo"

/-- Take the first selector yielding at least one block; use its first
block (lines 305–309). -/
def firstBlockFrom (doc : Elem) : List String → Option Elem
  | [] => none
  | s :: rest =>
    match doc.selAll s with
    | [] => firstBlockFrom doc rest
    | b :: _ => some b

/-- The ordered name-selector cascade (lines 326–337). -/
def name_patterns : List String :=
  ["a[class*=\"viewMenu\"]", "div[class*=\"name\"]", "h3", "h2", "h1",
   "span[class*=\"title\"]", "div[class*=\"title\"]", "a[href*=\"view\"]",
   "strong", "b", "div:first-child", "a:first-child"]

def genericLabels : List String := ["view", "details", "more"]

/-- The candidate-collection loop of lines 339–344: for each pattern, for
each matching element, keep its stripped text when it is non-empty, longer
than 2 characters and not a generic label. -/
def collectFromElems : List Elem → List String
  | [] => []
  | e :: rest =>
    let t := e.textStrip
    if (t != "") && decide (2 < t.length) && !genericLabels.contains (toLowerStr t) then
      t :: collectFromElems rest
    else collectFromElems rest

def collectCands (b : Elem) : List String :=
  name_patterns.foldl (fun acc p => acc ++ collectFromElems (b.selAll p)) []

/-- The order-preserving deduplication of lines 347–348. -/
def dedupGo (seen : List String) : List String → List String
  | [] => []
  | x :: rest => if seen.contains x then dedupGo seen rest else x :: dedupGo (x :: seen) rest

def dedupKeepFirst (l : List String) : List String := dedupGo [] l

/-- Python `max(l, key=len)` over a traversal: the first element of maximal
length (replacement only on strictly greater length). -/
def maxByLen (l : List String) : Option String :=
  l.foldl
    (fun acc x =>
      match acc with
      | none => some x
      | some y => if y.length < x.length then some x else some y)
    none

/-- The company-name selection of lines 351–356: if candidates survive
deduplication, keep those in the 3–100 length window and pick the longest;
the source assigns `info['COMPANY NAME']` exactly when this is `some`. -/
def selectedCompanyName (b : Elem) : Option String :=
  let cands := dedupKeepFirst (collectCands b)
  if cands.isEmpty then none
  else
    let filtered := cands.filter (fun n => decide (3 ≤ n.length) && decide (n.length ≤ 100))
    if filtered.isEmpty then none else maxByLen filtered

/-! Label/value row extraction (lines 358–392). -/

/-- Locate the first `:` or `：` (pattern `^(.*?)[:：]\s*(.*)$` with DOTALL:
the lazy group stops at the first colon, the rest is the value). -/
def splitAtColon : List Char → Option (List Char × List Char)
  | [] => none
  | c :: rest =>
    if c = ':' || c = '：' then some ([], rest)
    else (splitAtColon rest).map (fun pq => (c :: pq.1, pq.2))

def applyPattern1 (rowText : String) : Option (String × String) :=
  match splitAtColon rowText.toList with
  | some (pre, post) =>
    some (toUpperStr (String.mk (stripEnds isWsChar pre)),
      String.mk (stripEnds isWsChar (post.dropWhile isWsChar)))
  | none => none

/-- Case-insensitive literal prefix test (`pat` given lowercase). -/
def ciPre : List Char → List Char → Option (List Char)
  | [], s => some s
  | _ :: _, [] => none
  | p :: pr, c :: cr => if p = Char.toLower c then ciPre pr cr else none

/-- First case-insensitive occurrence of `pat`: the text before it and the
text after it. -/
def findCI (pat : List Char) : List Char → Option (List Char × List Char)
  | [] => (ciPre pat []).map (fun r => ([], r))
  | c :: rest =>
    match ciPre pat (c :: rest) with
    | some r => some ([], r)
    | none => (findCI pat rest).map (fun pq => (c :: pq.1, pq.2))

/-- The lazy value group of `<b>(.*?)</b>\s*(.*?)(?=<br|<p|$)`: text up to
the first `<br` / `<p` (case-insensitive), the end of the string, or the
position just before a final newline (the `$` of a non-MULTILINE pattern). -/
def takeUntilStop : List Char → List Char
  | [] => []
  | c :: rest =>
    if (ciPre ['<', 'b', 'r'] (c :: rest)).isSome || (ciPre ['<', 'p'] (c :: rest)).isSome then []
    else if c = '\n' && rest.isEmpty then []
    else c :: takeUntilStop rest

def applyPattern2 (rowText : String) : Option (String × String) :=
  match findCI ['<', 'b', '>'] rowText.toList with
  | none => none
  | some (_, afterOpen) =>
    match findCI ['<', '/', 'b', '>'] afterOpen with
    | none => none
    | some (labelRaw, afterClose) =>
      some (toUpperStr (String.mk (stripEnds isWsChar labelRaw)),
        String.mk (stripEnds isWsChar (takeUntilStop (afterClose.dropWhile isWsChar))))

/-- Store a label/value pair subject to the sanity bounds of line 389. -/
def tryStore (info : List (String × String)) (r : Option (String × String)) :
    List (String × String) :=
  match r with
  | some (label, value) =>
    if label ≠ "" ∧ value ≠ "" ∧ label.length < 50 ∧ value.length < 200 then
      dictSet info label value
    else info
  | none => info

/-- One row: skip rows whose raw markup is shorter than 10 or longer than
1000 characters; both label/value patterns are attempted (the source has no
break between them). -/
def rowStep (info : List (String × String)) (row : Elem) : List (String × String) :=
  let rt := row.rawHtml
  if rt.length < 10 ∨ 1000 < rt.length then info
  else tryStore (tryStore info (applyPattern1 rt)) (applyPattern2 rt)

/-- The ordered row-selector cascade (lines 369–373). -/
def row_selectors : List String :=
  ["div[class*=\"row\"]", "tr", "div[class*=\"item\"]", "div[class*=\"field\"]",
   "div[class*=\"detail\"]", "p", "div > div"]

def rowExtraction (b : Elem) (info : List (String × String)) : List (String × String) :=
  row_selectors.foldl (fun acc s => (b.selAll s).foldl rowStep acc) info

def startsWithL (p s : List Char) : Bool := (stripPre p s).isSome

def urlStarts : List (List Char) := [String.toList "http", String.toList "www", String.toList "mailto:"]

/-- The fallback of lines 395–400: first anchor (with href and string)
whose text is longer than 2 characters and not URL-like. -/
def firstGoodAnchor (b : Elem) : Option String :=
  b.anchorTexts.find?
    (fun t => decide (2 < t.length) && !(urlStarts.any (fun p => startsWithL p (toLowerStr t).toList)))

/-- `re.sub(r'<[^>]+>', '', name)`: remove each `<`, one or more non-`>`
characters, `>` group. -/
def stripTagsGo : ℕ → List Char → List Char
  | 0, s => s
  | _ + 1, [] => []
  | fuel + 1, c :: rest =>
    if c = '<' then
      let inner := rest.takeWhile (fun x => x ≠ '>')
      if inner.isEmpty then c :: stripTagsGo fuel rest
      else
        match rest.drop inner.length with
        | '>' :: _ => stripTagsGo fuel (rest.drop (inner.length + 1))
        | _ => c :: stripTagsGo fuel rest
    else c :: stripTagsGo fuel rest

def stripTags (s : String) : String := String.mk (stripTagsGo s.toList.length s.toList)

/-- `str(result_block)[:2000] + ('...' if len(...) > 2000 else '')`. -/
def truncRaw (s : String) : String :=
  String.mk (s.toList.take 2000) ++ (if 2000 < s.length then "..." else "")

/-- `extract_company_info` (src/business_lookup.py lines 265–419). -/
def extract_company_info (doc : Elem) : List (String × String) :=
  match firstBlockFrom doc result_selectors with
  | none => []
  | some b =>
    let info1 := dictSet [] "CORPORATION TYPE"
      (match (b.selAll corpTypeSelector).head? with
       | some e => e.textStrip
       | none => "Not specified")
    let info2 :=
      match selectedCompanyName b with
      | some n => dictSet info1 "COMPANY NAME" n
      | none => info1
    let info3 := rowExtraction b info2
    let info4 :=
      if (List.lookup "COMPANY NAME" info3).isNone then
        match firstGoodAnchor b with
        | some t => dictSet info3 "COMPANY NAME" t
        | none => info3
      else info3
    let info5 := dictSet info4 "_raw_html" (truncRaw b.rawHtml)
    match List.lookup "COMPANY NAME" info5 with
    | some v => dictSet info5 "COMPANY NAME" (pyStripStr (stripTags v))
    | none => info5

/-! ## Concurrent batch orchestrator
(src/playwright_version/web_scraper_playwright.py lines 597–688)

A Retrieval Session is abstracted as `session : String → Except String
SearchResult`: `Except.error e` models the session body raising an
exception whose description is `e`.  `_process_single_business` catches
every exception and converts it to a failed `SearchResult`; consequently
the `isinstance(result, Exception)` branch after `asyncio.gather` (lines
671–679) is unreachable and the gathered batch results are exactly the
per-name results, in batch order. -/

/-- The `SearchResult` dataclass (lines 34–42), fields in source order;
`search_time` defaults to `0.0`, `response_size` to `0`. -/
structure SearchResult where
  business_name : String
  html_content : String
  success : Bool
  error_message : String
  search_time : ℚ
  response_size : ℕ
  deriving DecidableEq

def dummyResult : SearchResult := ⟨"", "", false, "", 0, 0⟩

/-- `_process_single_business` (lines 617–646): any exception becomes a
failed `SearchResult` carrying the exception's description. -/
def processSingleBusiness (session : String → Except String SearchResult)
    (name : String) : SearchResult :=
  match session name with
  | Except.ok r => r
  | Except.error e => ⟨name, "", false, e, 0, 0⟩

/-- The batch loop of `process_businesses` (lines 659–688): slices of
`bs` names are processed in order and their results concatenated (fuel ≥
number of names suffices, each step consuming a full slice). -/
def batchGo (session : String → Except String SearchResult) (bs : ℕ) :
    ℕ → List String → List SearchResult
  | 0, _ => []
  | _ + 1, [] => []
  | fuel + 1, x :: rest =>
    ((x :: rest).take bs).map (processSingleBusiness session)
      ++ batchGo session bs fuel (rest.drop (bs - 1))

/-- `process_businesses` (lines 648–688).  `range(0, n, 0)` raises
`ValueError` in Python, modelled as `Except.error`. -/
def processBusinesses (session : String → Except String SearchResult)
    (names : List String) (bs : ℕ) : Except String (List SearchResult) :=
  if bs = 0 then Except.error "ValueError: range() arg 3 must not be zero"
  else Except.ok (batchGo session bs names.length names)

/-! ## Semaphore admission gate
(src/playwright_version/web_scraper_playwright.py lines 603–619)

`asyncio.Semaphore(max_concurrent)` guards the whole body of
`_process_single_business` via `async with self.semaphore`.  The protocol
is modelled as a transition system over the phases of the batch's tasks: a
pending task may start running only when fewer than `maxC` tasks are
running (semaphore acquire), and a running task may finish (release). -/

inductive SessPhase where
  | pending
  | running
  | finished
  deriving DecidableEq

def SessPhase.isRunning : SessPhase → Bool
  | .running => true
  | _ => false

/-- The number of sessions currently inside the semaphore-guarded region. -/
def activeCount (s : List SessPhase) : ℕ := s.countP SessPhase.isRunning

inductive SemStep (maxC : ℕ) : List SessPhase → List SessPhase → Prop
  | acquire (s : List SessPhase) (i : ℕ) (hp : s.get? i = some .pending)
      (hcap : activeCount s < maxC) : SemStep maxC s (s.set i .running)
  | release (s : List SessPhase) (i : ℕ) (hr : s.get? i = some .running) :
      SemStep maxC s (s.set i .finished)

inductive SemReach (maxC : ℕ) (init : List SessPhase) : List SessPhase → Prop
  | refl : SemReach maxC init init
  | step {s t : List SessPhase} : SemReach maxC init s → SemStep maxC s t →
      SemReach maxC init t

/-! ## Shared helper lemmas -/

theorem mem_pyAdd (l : List String) (y x : String) (hx : x ∈ l) : x ∈ pyAdd l y := by
  unfold pyAdd
  split
  · exact hx
  · exact List.mem_append_left _ hx

theorem mem_foldl_pyAdd (x : String) (l : List String) :
    ∀ acc : List String, x ∈ acc → x ∈ l.foldl pyAdd acc := by
  induction l with
  | nil => intro acc hx; exact hx
  | cons y ys ih => intro acc hx; exact ih _ (mem_pyAdd _ _ _ hx)

/-! ## Claim theorems -/

/-- Claim C1 (code bug): on an empty candidate map, or one lacking the
`COMPANY NAME` key, `is_company_match` executes `return False, ""` — a bare
2-tuple without the `0.0` confidence component the docstring, the
`Tuple[bool, str, float]` annotation and the three-way unpacking at the
call site all require, rather than the documented `(False, "", 0.0)`. -/
theorem missing_name_returns_bare_pair :
    is_company_match "Acme" [] = MatchRet.pair false ""
    ∧ is_company_match "Acme" [("STATUS", "Active")] = MatchRet.pair false "" := by
  decide

/-- Claim C2: whenever the candidate map contains an entity name and the
variation sets of the query and of the candidate name intersect,
`is_company_match` returns the triple `(true, candidate name, 0.95)`. -/
theorem direct_variation_match (q : String) (fm : List (String × String)) (cname : String)
    (hlook : List.lookup "COMPANY NAME" fm = some cname)
    (hint : pyInter (get_name_variations q) (get_name_variations cname) ≠ []) :
    is_company_match q fm = MatchRet.triple true cname (95 / 100) := by
  have hne : fm.isEmpty = false := by
    cases fm with
    | nil => simp [List.lookup] at hlook
    | cons a l => rfl
  unfold is_company_match
  rw [hlook]
  simp [hne, hint]

/-- Witness for C2 at a concrete query and candidate. -/
theorem direct_variation_match_witness :
    List.lookup "COMPANY NAME" [("COMPANY NAME", "Acme")] = some "Acme"
    ∧ pyInter (get_name_variations "Acme") (get_name_variations "Acme") ≠ []
    ∧ is_company_match "Acme" [("COMPANY NAME", "Acme")]
        = MatchRet.triple true "Acme" (95 / 100) :=
  ⟨by decide, by decide,
    direct_variation_match "Acme" [("COMPANY NAME", "Acme")] "Acme" (by decide) (by decide)⟩

/-- Claim C3 (counterexample): normalization is not idempotent on every
string.  One pass rewrites `cooperative` to `co-op`, but a second pass then
strips the `co` as the entity suffix `co`, leaving `op`. -/
theorem normalize_not_idempotent_at_cooperative :
    normalize_company_name (normalize_company_name "cooperative")
      ≠ normalize_company_name "cooperative"
    ∧ normalize_company_name "cooperative" = "co-op"
    ∧ normalize_company_name "co-op" = "op" := by
  decide

/-- Claim C3 (amended): normalization is idempotent on the spec's tested
example inputs; the general law fails only when a pass newly creates a
suffix or co-op token (see the counterexample). -/
theorem normalize_idempotent_on_tested_inputs :
    normalize_company_name (normalize_company_name "MTD Products Limited")
      = normalize_company_name "MTD Products Limited"
    ∧ normalize_company_name (normalize_company_name "MTD Products Inc. (1234567)")
      = normalize_company_name "MTD Products Inc. (1234567)"
    ∧ normalize_company_name (normalize_company_name "Union Co-op")
      = normalize_company_name "Union Co-op"
    ∧ normalize_company_name (normalize_company_name "Totally Unrelated Name")
      = normalize_company_name "Totally Unrelated Name"
    ∧ normalize_company_name (normalize_company_name "ABC Holdings Inc")
      = normalize_company_name "ABC Holdings Inc" := by
  decide

/-- Claim C5 (counterexample): on the spec's own example pair the engine
returns confidence 0.95 through the direct variation intersection, not 0.85
through the term-match rule, and the query's normalized form contains no
`co-op` token (the `co` of `Co-op` is removed as an entity suffix before
co-op folding). -/
theorem union_coop_example_counterexample :
    is_company_match "Union Co-op" [("COMPANY NAME", "Union Cooperative Association")]
      = MatchRet.triple true "Union Cooperative Association" (95 / 100)
    ∧ occursIn "co-op" (normalize_company_name "Union Co-op") = false
    ∧ ((95 : ℚ) / 100 ≠ 85 / 100) := by
  refine ⟨rfl, by decide, by norm_num⟩

/-- Claim C5 (amended): for query `Union Co-op` and candidate
`Union Cooperative Association`, co-op folding yields the `co-op` token
only in the candidate (the query normalizes to `union -op`, its `co` being
removed as an entity suffix first); both sides share the first-word
variation `union`, so the direct variation intersection fires and the
engine returns a match at confidence 0.95; the term-match tier is never
reached. -/
theorem union_coop_example_amended :
    is_company_match "Union Co-op" [("COMPANY NAME", "Union Cooperative Association")]
      = MatchRet.triple true "Union Cooperative Association" (95 / 100)
    ∧ normalize_company_name "Union Co-op" = "union -op"
    ∧ normalize_company_name "Union Cooperative Association" = "union co-op association"
    ∧ "union" ∈ pyInter (get_name_variations "Union Co-op")
        (get_name_variations "Union Cooperative Association") := by
  refine ⟨rfl, by decide, by decide, by decide⟩

/-- Claim C6 (counterexample): for the non-empty input `inc` the normalized
form is the empty string and the generated variation set is empty, so it
does not contain the normalized form of the input. -/
theorem variations_missing_normalized_form :
    ¬ (normalize_company_name "inc" ∈ get_name_variations "inc")
    ∧ get_name_variations "inc" = []
    ∧ ("inc" : String) ≠ "" := by
  decide

/-- Claim C6 (amended): variation generation is a pure function (hence
deterministic); whenever the input's normalized form is empty — in
particular for the empty input — the variation set is empty, and otherwise
the set contains the normalized form of the name itself. -/
theorem variations_contain_normalized_form (name : String) :
    (normalize_company_name name = "" → get_name_variations name = [])
    ∧ (normalize_company_name name ≠ "" →
        normalize_company_name name ∈ get_name_variations name) := by
  constructor
  · intro h
    by_cases hn : name = ""
    · simp [get_name_variations, hn]
    · simp [get_name_variations, hn, h]
  · intro h
    have hn : name ≠ "" := by
      intro he
      apply h
      rw [he]
      rfl
    simp only [get_name_variations, if_neg hn, if_neg h]
    unfold pySetOfList
    simp only [List.cons_append, List.foldl_cons]
    apply mem_foldl_pyAdd
    apply mem_pyAdd
    apply mem_pyAdd
    simp [pyAdd]

/-- Witness for C6 (amended) at concrete inputs. -/
theorem variations_contain_normalized_form_witness :
    get_name_variations "inc" = []
    ∧ normalize_company_name "Acme" ∈ get_name_variations "Acme" :=
  ⟨(variations_contain_normalized_form "inc").1 (by decide),
    (variations_contain_normalized_form "Acme").2 (by decide)⟩

/-- Claim C4 (counterexample): the co-op special case checks the union of
the two token pools, not both sides.  For query `Cooperative` against
candidate `Zebra`, no term, substring or acronym rule fires and the
candidate's token pool contains no co-op-family token at all, yet the
co-op rule flips the result to a match at the 0.70 tier on the strength of
the query side alone. -/
theorem coop_rule_counterexample :
    is_company_match "Cooperative" [("COMPANY NAME", "Zebra")]
      = MatchRet.triple true "Zebra" (70 / 100)
    ∧ (termSet "Zebra").all (fun t => !(occursIn "coop" t || occursIn "co-op" t)) = true
    ∧ pyInter (termSet "Cooperative") (termSet "Zebra") = []
    ∧ substrSignal (termSet "Cooperative") (termSet "Zebra") = false
    ∧ pyInter (acronymsOf "Cooperative") (acronymsOf "Zebra") = [] := by
  refine ⟨rfl, by decide, by decide, by decide, by decide⟩

/-- Claim C4 (amended): the co-op special case fires when the union of the
two token pools contains both a token with a co-op-family substring and an
exact `coop`/`co-op` token — one side alone suffices.  When it fires (and
no direct variation match occurred) the result is a match; the confidence
stays the tier determined by the earlier rules — 0.85 on a term match,
0.80 on an acronym collision — and only drops to the 0.70 tier when no
higher-priority condition fired. -/
theorem coop_rule_amended (q : String) (fm : List (String × String)) (cname : String)
    (hlook : List.lookup "COMPANY NAME" fm = some cname)
    (hnd : pyInter (get_name_variations q) (get_name_variations cname) = [])
    (hcoop : coopSignal (pyUnion (termSet q) (termSet cname)) = true) :
    ∃ conf : ℚ,
      is_company_match q fm = MatchRet.triple true cname conf
      ∧ (pyInter (termSet q) (termSet cname) ≠ [] → conf = 85 / 100)
      ∧ (pyInter (termSet q) (termSet cname) = [] →
          pyInter (acronymsOf q) (acronymsOf cname) ≠ [] → conf = 80 / 100)
      ∧ (pyInter (termSet q) (termSet cname) = [] →
          pyInter (acronymsOf q) (acronymsOf cname) = [] → conf = 70 / 100) := by
  have hne : fm.isEmpty = false := by
    cases fm with
    | nil => simp [List.lookup] at hlook
    | cons a l => rfl
  refine ⟨if pyInter (termSet q) (termSet cname) ≠ [] then (85 : ℚ) / 100
    else if pyInter (acronymsOf q) (acronymsOf cname) ≠ [] then (80 : ℚ) / 100
    else (70 : ℚ) / 100, ?_, ?_, ?_, ?_⟩
  · unfold is_company_match
    rw [hlook]
    simp only [hne, Option.isNone_some, Bool.or_self, Bool.or_false, Option.getD_some,
      Bool.false_eq_true, if_false]
    rw [if_neg (by simp [hnd])]
    simp [hcoop]
  · intro hc
    rw [if_pos hc]
  · intro hc ha
    rw [if_neg (fun hx => hx hc), if_pos ha]
  · intro hc ha
    rw [if_neg (fun hx => hx hc), if_neg (fun hx => hx ha)]

/-- Witness for C4 (amended) at the concrete one-sided co-op pair. -/
theorem coop_rule_amended_witness :
    is_company_match "Cooperative" [("COMPANY NAME", "Zebra")]
      = MatchRet.triple true "Zebra" (70 / 100) := by
  obtain ⟨conf, h1, _, _, h4⟩ :=
    coop_rule_amended "Cooperative" [("COMPANY NAME", "Zebra")] "Zebra" rfl
      (by decide) (by decide)
  rw [h1, h4 (by decide) (by decide)]

/-! ## Orchestrator lemmas and Claim C7 -/

theorem batchGo_eq_map (session : String → Except String SearchResult) (bs : ℕ)
    (hbs : 0 < bs) :
    ∀ (fuel : ℕ) (names : List String), names.length ≤ fuel →
      batchGo session bs fuel names = names.map (processSingleBusiness session) := by
  intro fuel
  induction fuel with
  | zero =>
    intro names h
    cases names with
    | nil => rfl
    | cons x rest => exact absurd h (by simp)
  | succ m ih =>
    intro names h
    cases names with
    | nil => rfl
    | cons x rest =>
      obtain ⟨k, rfl⟩ : ∃ k, bs = k + 1 := ⟨bs - 1, (Nat.succ_pred_eq_of_pos hbs).symm⟩
      have hlen : (rest.drop (k + 1 - 1)).length ≤ m := by
        simp only [List.length_drop]
        simp only [List.length_cons, Nat.succ_le_succ_iff] at h
        omega
      show ((x :: rest).take (k + 1)).map (processSingleBusiness session)
          ++ batchGo session (k + 1) m (rest.drop (k + 1 - 1))
        = (x :: rest).map (processSingleBusiness session)
      rw [ih _ hlen]
      simp only [List.take_succ_cons, List.map_cons, List.cons_append,
        Nat.add_sub_cancel, ← List.map_append, List.take_append_drop]

theorem getD_map_of_lt (f : String → SearchResult) :
    ∀ (l : List String) (i : ℕ), i < l.length →
      (l.map f).getD i dummyResult = f (l.getD i "") := by
  intro l
  induction l with
  | nil => intro i hi; exact absurd hi (by simp)
  | cons x rest ih =>
    intro i hi
    cases i with
    | zero => rfl
    | succ j =>
      simp only [List.map_cons, List.getD_cons_succ]
      exact ih j (Nat.lt_of_succ_lt_succ hi)

/-- Claim C7: for every query list, `process_businesses` returns exactly
one outcome per query, in the original input order; every session-level
exception is caught and converted into a failed outcome carrying the
exception's description; in particular when every session raises, the
result is one failed outcome per query, in order, none missing.
(`batch_size = 0` would make Python's `range` raise, hence the
positivity hypothesis.) -/
theorem run_returns_one_outcome_per_query (session : String → Except String SearchResult)
    (names : List String) (bs : ℕ) (hbs : 0 < bs) :
    processBusinesses session names bs
      = Except.ok (names.map (processSingleBusiness session))
    ∧ (names.map (processSingleBusiness session)).length = names.length
    ∧ (∀ name e, session name = Except.error e →
        processSingleBusiness session name = ⟨name, "", false, e, 0, 0⟩)
    ∧ ((∀ n, ∃ e, session n = Except.error e) →
        ∀ i, i < names.length →
          ∃ e, session (names.getD i "") = Except.error e
            ∧ (names.map (processSingleBusiness session)).getD i dummyResult
                = ⟨names.getD i "", "", false, e, 0, 0⟩) := by
  refine ⟨?_, by simp, ?_, ?_⟩
  · unfold processBusinesses
    rw [if_neg (Nat.pos_iff_ne_zero.mp hbs)]
    rw [batchGo_eq_map session bs hbs names.length names le_rfl]
  · intro name e he
    unfold processSingleBusiness
    rw [he]
  · intro hall i hi
    obtain ⟨e, he⟩ := hall (names.getD i "")
    refine ⟨e, he, ?_⟩
    rw [getD_map_of_lt _ _ _ hi]
    unfold processSingleBusiness
    rw [he]

def failSession : String → Except String SearchResult :=
  fun n => Except.error ("boom " ++ n)

/-- Witness for C7 on a concrete batch whose every session raises. -/
theorem run_returns_one_outcome_per_query_witness :
    processBusinesses failSession ["a", "b", "c"] 2
      = Except.ok (["a", "b", "c"].map (processSingleBusiness failSession))
    ∧ (["a", "b", "c"].map (processSingleBusiness failSession)).length = 3 := by
  obtain ⟨h1, h2, _, _⟩ :=
    run_returns_one_outcome_per_query failSession ["a", "b", "c"] 2 (by decide)
  exact ⟨h1, h2⟩

/-! ## Claim C8 -/

/-- Claim C8: on a document where none of the ordered block selectors
matches any element, `extract_company_info` returns the empty field map
(and, being a total function of the model, does not raise). -/
theorem extract_empty_when_no_block (doc : Elem)
    (h : ∀ s ∈ result_selectors, doc.selAll s = []) :
    extract_company_info doc = [] := by
  have h1 := h "div.registerItemSearch-results-page-line" (by simp [result_selectors])
  have h2 := h "div.search-result" (by simp [result_selectors])
  have h3 := h "div.result-item" (by simp [result_selectors])
  have h4 := h "div[class*=\"result\"]" (by simp [result_selectors])
  have h5 := h "div[class*=\"item\"]" (by simp [result_selectors])
  unfold extract_company_info
  simp [result_selectors, firstBlockFrom, h1, h2, h3, h4, h5]

def emptyDoc : Elem := Elem.mk "" "" (fun _ => []) []

/-- Witness for C8 on a concrete selector-empty document. -/
theorem extract_empty_when_no_block_witness : extract_company_info emptyDoc = [] :=
  extract_empty_when_no_block emptyDoc (fun _ _ => rfl)

/-! ## Semaphore lemmas and Claim C10 -/

theorem activeCount_replicate (n : ℕ) :
    activeCount (List.replicate n SessPhase.pending) = 0 := by
  induction n with
  | zero => rfl
  | succ k ih =>
    simp only [List.replicate_succ, activeCount, List.countP_cons] at *
    simp [ih, SessPhase.isRunning]

theorem activeCount_set_run (s : List SessPhase) (i : ℕ)
    (h : s.get? i = some SessPhase.pending) :
    activeCount (s.set i SessPhase.running) = activeCount s + 1 := by
  induction s generalizing i with
  | nil => simp at h
  | cons a t ih =>
    cases i with
    | zero =>
      have ha : a = SessPhase.pending := by simpa using h
      subst ha
      simp [activeCount, List.countP_cons, SessPhase.isRunning]
    | succ j =>
      have hj : t.get? j = some SessPhase.pending := by simpa using h
      simp only [List.set_cons_succ, activeCount, List.countP_cons]
      have := ih j hj
      simp only [activeCount] at this
      omega

theorem activeCount_set_fin (s : List SessPhase) (i : ℕ)
    (h : s.get? i = some SessPhase.running) :
    activeCount (s.set i SessPhase.finished) + 1 = activeCount s := by
  induction s generalizing i with
  | nil => simp at h
  | cons a t ih =>
    cases i with
    | zero =>
      have ha : a = SessPhase.running := by simpa using h
      subst ha
      simp [activeCount, List.countP_cons, SessPhase.isRunning]
    | succ j =>
      have hj : t.get? j = some SessPhase.running := by simpa using h
      simp only [List.set_cons_succ, activeCount, List.countP_cons]
      have := ih j hj
      simp only [activeCount] at this
      omega

/-- Claim C10: in every state the semaphore admission gate can reach from
the initial all-pending batch, at most `maxC` sessions are active
simultaneously. -/
theorem semaphore_bounds_active (maxC n : ℕ) (s : List SessPhase)
    (hre : SemReach maxC (List.replicate n SessPhase.pending) s) :
    activeCount s ≤ maxC := by
  induction hre with
  | refl => simp [activeCount_replicate]
  | @step u t hr hstep ih =>
    cases hstep with
    | acquire i hp hcap =>
      rw [activeCount_set_run u i hp]
      omega
    | release i hrun =>
      have := activeCount_set_fin u i hrun
      omega

/-- Witness for C10: a two-task batch under `max_concurrent = 1` after one
acquire step. -/
theorem semaphore_bounds_active_witness :
    activeCount [SessPhase.running, SessPhase.pending] ≤ 1 :=
  semaphore_bounds_active 1 2 _
    (SemReach.step SemReach.refl
      (SemStep.acquire (List.replicate 2 SessPhase.pending) 0 rfl (by decide)))

/-! ## Claim C9: the entity-name selection step, stated as the spec
describes it

The spec-side pipeline is written independently of the source-shaped
definitions (`collectFromElems` / `collectCands` / `selectedCompanyName`):
collection as a filter over the concatenated selector hits, and longest
selection as a first-longest recursion, and the two are proved equal. -/

/-- Spec wording: "collect every candidate text of length > 2 that is not a
generic label", over the ordered name-selector cascade. -/
def c9_collect (b : Elem) : List String :=
  ((name_patterns.map (fun p => b.selAll p)).flatten.map Elem.textStrip).filter
    (fun t => decide (2 < t.length) && !genericLabels.contains (toLowerStr t))

/-- Spec wording: "discard candidates whose length lies outside the 3–100
character window". -/
def c9_window (l : List String) : List String :=
  l.filter (fun n => decide (3 ≤ n.length) && decide (n.length ≤ 100))

/-- Spec wording: "select the longest remaining candidate" (the first one
on ties, matching Python `max`). -/
def c9_longest : List String → Option String
  | [] => none
  | x :: rest =>
    match c9_longest rest with
    | none => some x
    | some y => some (if x.length < y.length then y else x)

/-- The spec's description of the whole selection step: collect,
deduplicate preserving order, window, take the longest. -/
def c9_spec (b : Elem) : Option String :=
  c9_longest (c9_window (dedupKeepFirst (c9_collect b)))

theorem collectFromElems_eq (l : List Elem) :
    collectFromElems l = (l.map Elem.textStrip).filter
      (fun t => decide (2 < t.length) && !genericLabels.contains (toLowerStr t)) := by
  induction l with
  | nil => rfl
  | cons e rest ih =>
    simp only [collectFromElems, List.map_cons, List.filter_cons]
    have hcond : ((e.textStrip != "") && decide (2 < e.textStrip.length)
        && !genericLabels.contains (toLowerStr e.textStrip))
        = (decide (2 < e.textStrip.length)
            && !genericLabels.contains (toLowerStr e.textStrip)) := by
      by_cases he : e.textStrip = ""
      · rw [he]
        decide
      · rw [show (e.textStrip != "") = true from bne_iff_ne.mpr he]
        simp
    rw [hcond, ih]

theorem collectCands_eq (b : Elem) : collectCands b = c9_collect b := by
  have haux : ∀ (pats : List String) (acc : List String),
      pats.foldl (fun acc p => acc ++ collectFromElems (b.selAll p)) acc
        = acc ++ ((pats.map (fun p => b.selAll p)).flatten.map Elem.textStrip).filter
            (fun t => decide (2 < t.length) && !genericLabels.contains (toLowerStr t)) := by
    intro pats
    induction pats with
    | nil => intro acc; simp
    | cons p ps ih =>
      intro acc
      rw [List.foldl_cons, ih, collectFromElems_eq]
      simp [List.filter_append, List.append_assoc]
  have := haux name_patterns []
  simpa [collectCands, c9_collect] using this

theorem maxByLen_eq_c9_longest (l : List String) : maxByLen l = c9_longest l := by
  have haux : ∀ (m : List String) (y : String),
      m.foldl
        (fun acc x =>
          match acc with
          | none => some x
          | some z => if z.length < x.length then some x else some z)
        (some y)
        = some (match c9_longest m with
                | none => y
                | some z => if y.length < z.length then z else y) := by
    intro m
    induction m with
    | nil => intro y; rfl
    | cons x rest ih =>
      intro y
      rw [List.foldl_cons]
      have hstep : (match some y with
          | none => some x
          | some z => if z.length < x.length then some x else some z)
          = some (if y.length < x.length then x else y) := by
        by_cases h : y.length < x.length <;> simp [h]
      rw [hstep, ih]
      simp only [c9_longest]
      cases hrest : c9_longest rest with
      | none => by_cases h : y.length < x.length <;> simp [h]
      | some z =>
        by_cases h1 : y.length < x.length
        · by_cases h2 : x.length < z.length
          · have h3 : y.length < z.length := lt_trans h1 h2
            simp [h1, h2, h3]
          · simp [h1, h2]
        · by_cases h2 : x.length < z.length
          · simp [h1, h2]
          · have h3 : ¬ y.length < z.length := by omega
            simp [h1, h2, h3]
  cases l with
  | nil => rfl
  | cons x rest =>
    show List.foldl _ (some x) rest = _
    rw [haux rest x]
    simp only [c9_longest]
    cases hrest : c9_longest rest with
    | none => rfl
    | some z => rfl

/-- Claim C9: within the first matched result block, the source's
entity-name extraction equals the spec's pipeline — collect every
candidate text of length > 2 that is not a generic label, deduplicate
preserving order, discard candidates outside the 3–100 window, and select
the longest remaining candidate (the extracted entity name; `none` when no
candidate survives, in which case the source assigns no name here). -/
theorem name_selection_matches_spec (b : Elem) : selectedCompanyName b = c9_spec b := by
  unfold selectedCompanyName c9_spec c9_window
  rw [collectCands_eq]
  by_cases h : (dedupKeepFirst (c9_collect b)).isEmpty
  · rw [if_pos h, List.isEmpty_iff.mp h]
    rfl
  · rw [if_neg h]
    by_cases h2 : ((dedupKeepFirst (c9_collect b)).filter
        (fun n => decide (3 ≤ n.length) && decide (n.length ≤ 100))).isEmpty
    · rw [if_pos h2, List.isEmpty_iff.mp h2]
      rfl
    · rw [if_neg h2, maxByLen_eq_c9_longest]

end Zones
